import Mathlib

/-!
Verification of the finding-normalization, grouping and patch-application
pipeline of `src/fix.py` (AutoSecure).  Python strings are modelled as
`List Char`; Python ints as `Int`; the file system as a partial map from
path strings to file contents (a list of lines, each line a string that
normally ends in a newline character, as produced by `readlines`).
-/

namespace AutoSecure

/-- A Python string, modelled as its list of characters. -/
abbrev PyStr := List Char

/-- The whitespace characters stripped by Python's `str.strip` /
`str.lstrip` / `str.rstrip` (the ASCII fragment, which is all that occurs
in the pipeline's data). -/
def isPySpace (c : Char) : Bool :=
  c == ' ' || c == '\t' || c == '\n' || c == '\r' || c == '\x0b' || c == '\x0c'

/-- Python `str.lstrip()`: drop leading whitespace. -/
def lstrip (s : PyStr) : PyStr := s.dropWhile isPySpace

/-- Python `str.rstrip()`: drop trailing whitespace. -/
def rstrip (s : PyStr) : PyStr := (s.reverse.dropWhile isPySpace).reverse

/-- Python `str.strip()`: drop whitespace on both ends. -/
def pyStrip (s : PyStr) : PyStr := rstrip (lstrip s)

/-- Python `str.isdigit()` (ASCII fragment): non-empty and all digits. -/
def pyIsdigit (s : PyStr) : Bool := !s.isEmpty && s.all Char.isDigit

/-- The numeric value of a digit string (used for `int(s)` when `s.isdigit()`). -/
def digitsToNat (s : PyStr) : Nat := s.foldl (fun n c => 10 * n + (c.toNat - '0'.toNat)) 0

/-- Python `int(s)`: optional surrounding whitespace, an optional sign and a
non-empty digit run; anything else raises `ValueError`, modelled as
`Except.error ()`. -/
def pyInt (s : PyStr) : Except Unit Int :=
  match pyStrip s with
  | [] => .error ()
  | c :: rest =>
    if c = '-' then
      if pyIsdigit rest then .ok (-(digitsToNat rest : Int)) else .error ()
    else if c = '+' then
      if pyIsdigit rest then .ok (digitsToNat rest : Int) else .error ()
    else
      if pyIsdigit (c :: rest) then .ok (digitsToNat (c :: rest) : Int) else .error ()

/-- Python `str.split(sep)` for a one-character separator: no merging of
adjacent separators, `"" -> [""]`. -/
def pySplit (sep : Char) : PyStr → List PyStr
  | [] => [[]]
  | c :: rest =>
    if c = sep then [] :: pySplit sep rest
    else
      match pySplit sep rest with
      | [] => [[c]]
      | p :: ps => (c :: p) :: ps

/-- The `Vulnerability` dataclass of `src/fix.py` (lines 15-22). -/
structure Vulnerability where
  tool : PyStr
  file_path : PyStr
  line : Int
  message : PyStr
  severity : PyStr
  column : Option Int
  deriving DecidableEq

/-- The sort key relation of `sorted(vulnerabilities, key=lambda x: x.line)`:
Python's `sorted` is a stable sort by the key, which insertion sort with this
non-strict relation implements exactly. -/
def leLine (a b : Vulnerability) : Prop := a.line ≤ b.line

instance : DecidableRel leLine := fun a b => inferInstanceAs (Decidable (a.line ≤ b.line))

instance : IsTotal Vulnerability leLine := ⟨fun a b => Int.le_total a.line b.line⟩

instance : IsTrans Vulnerability leLine := ⟨fun _ _ _ => Int.le_trans⟩

/-- The walk of `_group_vulnerabilities` (lines 168-179): `acc` holds the
closed groups, `cur` the current group (always non-empty) and `curLast` the
line of `current_group[-1]`, the only datum of `cur` the walk reads.  The
final `if current_group` of the source is always true, so the last group is
appended unconditionally. -/
def groupGo (acc : List (List Vulnerability)) (cur : List Vulnerability) (curLast : Int) :
    List Vulnerability → List (List Vulnerability)
  | [] => acc ++ [cur]
  | v :: rest =>
    if v.line - curLast ≤ 3 then groupGo acc (cur ++ [v]) v.line rest
    else groupGo (acc ++ [cur]) [v] v.line rest

/-- `AIHealer._group_vulnerabilities` (src/fix.py lines 163-181). -/
def _group_vulnerabilities (vulnerabilities : List Vulnerability) : List (List Vulnerability) :=
  match List.insertionSort leLine vulnerabilities with
  | [] => []
  | v :: rest => groupGo [] [v] v.line rest

/-- `AIHealer._get_indentation` (src/fix.py lines 157-161). -/
def _get_indentation (line : PyStr) : PyStr :=
  let stripped := lstrip line
  if stripped = [] ∨ stripped = ['\n'] then line
  else line.take (line.length - stripped.length)

/-- The context slice of `fix_file` (src/fix.py lines 119-121):
`context_start = max(0, line_idx - 2)`, `context_end = min(len(lines), line_idx + 3)`,
`code_context = "".join(lines[context_start:context_end])`. -/
def contextOf (modified_lines : List PyStr) (line_idx : Int) : PyStr :=
  let context_start : Int := max 0 (line_idx - 2)
  let context_end : Int := min (modified_lines.length : Int) (line_idx + 3)
  ((modified_lines.drop context_start.toNat).take (context_end - context_start).toNat).flatten

/-- One iteration of the `for vuln_group in grouped_vulns` loop of
`AIHealer.fix_file` (src/fix.py lines 108-143), as a step on the state
`(modified_lines, fixed_count)`.  `proposer original_line code_context
primary_vuln` models `_query_llm_for_fix`: it is `some fl` when the returned
`fix_data` is truthy and carries a `fixed_line` entry `fl`, and `none`
otherwise (service failure, `None`, empty dict, or missing key). -/
def applyGroup (proposer : PyStr → PyStr → Vulnerability → Option PyStr)
    (st : List PyStr × Nat) (vuln_group : List Vulnerability) : List PyStr × Nat :=
  match vuln_group with
  | [] => st
  | primary_vuln :: _ =>
    let modified_lines := st.1
    let fixed_count := st.2
    let line_idx : Int := primary_vuln.line - 1
    if 0 ≤ line_idx ∧ line_idx < (modified_lines.length : Int) then
      let original_line := modified_lines.getD line_idx.toNat []
      let code_context := contextOf modified_lines line_idx
      match proposer original_line code_context primary_vuln with
      | some fl =>
        let fixed_content := rstrip fl
        let fixed_line := _get_indentation original_line ++ fixed_content ++ ['\n']
        if fixed_line ≠ original_line ∧ 0 < (pyStrip fixed_content).length then
          (modified_lines.set line_idx.toNat fixed_line, fixed_count + 1)
        else st
      | none => st
    else st

/-- The file system: a partial map from path strings to file contents. -/
def FS := PyStr → Option (List PyStr)

/-- Writing (or overwriting) one file. -/
def fsSet (fs : FS) (p : PyStr) (v : List PyStr) : FS :=
  fun q => if q = p then some v else fs q

/-- `Path(file_path).with_suffix('.bak')` (src/fix.py line 146): the suffix of
the final path component (the part from its last dot, when that dot is
neither the first nor the last character of the component) is replaced by
`.bak`. -/
def withSuffixBak (p : PyStr) : PyStr :=
  let name := (p.reverse.takeWhile (fun c => c ≠ '/')).reverse
  let dir := p.take (p.length - name.length)
  let extRev := name.reverse.takeWhile (fun c => c ≠ '.')
  let suffixLen : Nat :=
    if extRev.length = name.length then 0
    else if extRev.length = 0 then 0
    else if extRev.length + 1 = name.length then 0
    else extRev.length + 1
  dir ++ name.take (name.length - suffixLen) ++ ('.' :: ['b', 'a', 'k'])

/-- `AIHealer.fix_file` (src/fix.py lines 95-155) as a transformer of the
line-level file system: one invocation's session view, where a file's
content is the list of lines the session reads (`readlines`, line 98) and
writes (`writelines`, line 151).  A missing file returns with no change
(the caught `FileNotFoundError`, lines 99-101).  When `fixed_count > 0` the
untouched on-disk content is first copied to the backup path
(`shutil.copy2`, line 147) and only then the original path is overwritten
with the working copy (lines 150-151); otherwise the file system is
untouched.  Within one invocation this is exact: the bytes written are the
flattening of the stored list.  Across invocations the on-disk bytes are
re-split by `readlines`; that byte-level view is `fix_file_bytes` below. -/
def fix_file (proposer : PyStr → PyStr → Vulnerability → Option PyStr)
    (fs : FS) (file_path : PyStr) (vulnerabilities : List Vulnerability) : FS :=
  match fs file_path with
  | none => fs
  | some lines =>
    let grouped_vulns := _group_vulnerabilities vulnerabilities
    let result := grouped_vulns.foldl (applyGroup proposer) (lines, 0)
    let modified_lines := result.1
    let fixed_count := result.2
    if 0 < fixed_count then
      let backup_path := withSuffixBak file_path
      fsSet (fsSet fs backup_path lines) file_path modified_lines
    else fs

/-- The per-unit replacement decision of `fix_file`, recomputed against a
fixed snapshot `lines` of the working copy: `some (idx, fixed_line)` when the
unit's fix would be accepted there (the line index set and the reconstructed
line), `none` when the unit is skipped or rejected.  `applyGroup` is exactly
this decision taken against the current state (theorem `applyGroup_eq`). -/
def groupFixAt (proposer : PyStr → PyStr → Vulnerability → Option PyStr)
    (lines : List PyStr) (vuln_group : List Vulnerability) : Option (Nat × PyStr) :=
  match vuln_group with
  | [] => none
  | primary_vuln :: _ =>
    let line_idx : Int := primary_vuln.line - 1
    if 0 ≤ line_idx ∧ line_idx < (lines.length : Int) then
      let original_line := lines.getD line_idx.toNat []
      let code_context := contextOf lines line_idx
      match proposer original_line code_context primary_vuln with
      | some fl =>
        let fixed_content := rstrip fl
        let fixed_line := _get_indentation original_line ++ fixed_content ++ ['\n']
        if fixed_line ≠ original_line ∧ 0 < (pyStrip fixed_content).length then
          some (line_idx.toNat, fixed_line)
        else none
      | none => none
    else none

/-! ## The result normalizers (`StaticAnalyzer`, src/fix.py lines 36-88)

The XML / CSV reports are external artifacts; their parsed shape is the
input of the embedding.  For cppcheck, `none` stands for a report
`xml.etree.ElementTree` fails to parse (the caught `ET.ParseError`), and a
parsed report is the list of `<error>` elements, each with its optional
`<location>` child and optional attributes.  For flawfinder, `none` stands
for an absent CSV file and a present report is its list of text lines. -/

/-- A `<location>` element of a cppcheck report: its optional `file` and
`line` attributes (an XML attribute is a string). -/
structure CppcheckLocation where
  file : Option PyStr
  line : Option PyStr
  deriving DecidableEq

/-- An `<error>` element of a cppcheck report. -/
structure CppcheckError where
  location : Option CppcheckLocation
  msg : Option PyStr
  severity : Option PyStr
  deriving DecidableEq

/-- The body of the `for error in root.iter("error")` loop of
`_run_cppcheck` (src/fix.py lines 51-63).  `resolve` models
`str(Path(p).resolve())`.  `int(location.get("line", 0))` is `0` when the
attribute is missing and `pyInt` of the attribute string otherwise; a
non-numeric attribute makes `int` raise `ValueError`, which no handler in
`_run_cppcheck` catches (only `ET.ParseError` is), modelled as
`Except.error ()` aborting the whole normalization. -/
def cppcheckCollect (resolve : PyStr → PyStr) :
    List CppcheckError → Except Unit (List Vulnerability)
  | [] => .ok []
  | error :: rest =>
    match error.location with
    | none => cppcheckCollect resolve rest
    | some location =>
      match location.file with
      | none => cppcheckCollect resolve rest
      | some file_path =>
        if file_path = [] then cppcheckCollect resolve rest
        else do
          let ln : Int ← match location.line with
            | none => pure 0
            | some s => pyInt s
          let vulns ← cppcheckCollect resolve rest
          pure (⟨"cppcheck".toList, resolve file_path, ln,
                 (error.msg).getD [], (error.severity).getD "info".toList, none⟩ :: vulns)

/-- `StaticAnalyzer._run_cppcheck` (src/fix.py lines 36-67), from the parse
outcome of the XML report: a parse failure is caught and yields `[]`; a
parsed report is folded by `cppcheckCollect`. -/
def _run_cppcheck (resolve : PyStr → PyStr) (report : Option (List CppcheckError)) :
    Except Unit (List Vulnerability) :=
  match report with
  | none => .ok []
  | some errors => cppcheckCollect resolve errors

/-- `StaticAnalyzer._run_flawfinder` (src/fix.py lines 69-88), from the CSV
file contents (`none` when `csv_path.exists()` is false).  The header row is
skipped, each remaining row is stripped and split on commas, rows with fewer
than 7 fields are dropped, and the line field normalizes to its numeric
value when `isdigit()` and to `0` otherwise.  No exception can escape. -/
def _run_flawfinder (resolve : PyStr → PyStr) (report : Option (List PyStr)) :
    List Vulnerability :=
  match report with
  | none => []
  | some rows =>
    (rows.drop 1).foldr
      (fun row vulns =>
        let parts := pySplit ',' (pyStrip row)
        if 7 ≤ parts.length then
          ⟨"flawfinder".toList, resolve (parts.getD 0 []),
           if pyIsdigit (parts.getD 1 []) then (digitsToNat (parts.getD 1 []) : Int) else 0,
           parts.getD 6 [], parts.getD 3 [], none⟩ :: vulns
        else vulns)
      []

/-! ## The fix service boundary (`_query_llm_for_fix`, src/fix.py lines 183-224) -/

/-- The outcome of one round trip to the fix service, as the `try` block of
`_query_llm_for_fix` distinguishes them: `requests.post` raising a transport
exception, `raise_for_status` raising on an HTTP error status,
`response.json()` raising on an undecodable body, `json.loads` raising on an
undecodable `response` field, or a parsed result.  For a parsed result,
`fixed_line` is the dict's `fixed_line` entry when the dict is truthy and
has one, and `none` otherwise (`None`-like or empty dict, or missing key). -/
inductive SvcResult where
  | postRaised
  | badStatus
  | outerJsonRaised
  | innerJsonRaised
  | parsed (fixed_line : Option PyStr)
  deriving DecidableEq

/-- `AIHealer._query_llm_for_fix` (src/fix.py lines 183-224): every raising
outcome is caught by the blanket `except Exception` and returns `None`;
a parsed result is returned as is. -/
def _query_llm_for_fix (outcome : SvcResult) : Option (Option PyStr) :=
  match outcome with
  | .postRaised => none
  | .badStatus => none
  | .outerJsonRaised => none
  | .innerJsonRaised => none
  | .parsed d => some d

/-- Whether a service outcome is one of the failure cases. -/
def svcFailed (outcome : SvcResult) : Bool :=
  match outcome with
  | .parsed _ => false
  | _ => true

/-- The proposer `fix_file` actually runs: per call, the service delivers an
outcome (a function of the call's arguments), `_query_llm_for_fix` maps it,
and the two `None`-like layers collapse: the unit gets `some fl` only when
the round trip parsed and the dict carried a `fixed_line`. -/
def proposerOfSvc (svc : PyStr → PyStr → Vulnerability → SvcResult) :
    PyStr → PyStr → Vulnerability → Option PyStr :=
  fun original_line code_context primary_vuln =>
    match _query_llm_for_fix (svc original_line code_context primary_vuln) with
    | none => none
    | some d => d

/-! ## Derived notions used to state the grouping properties -/

/-- Two consecutive members of a remediation unit: ascending and at most 3
lines apart. -/
def gapOk (a b : Vulnerability) : Prop := a.line ≤ b.line ∧ b.line - a.line ≤ 3

/-- A well-formed remediation unit: non-empty and chained by `gapOk`. -/
def unitOk (g : List Vulnerability) : Prop := g ≠ [] ∧ List.Chain' gapOk g

/-- The line of a unit's primary (first) finding, defaulting to 0. -/
def headLineD (g : List Vulnerability) : Int :=
  match g with
  | [] => 0
  | v :: _ => v.line

/-- The line of a unit's last finding, defaulting to 0. -/
def lastLineD (g : List Vulnerability) : Int :=
  match g.getLast? with
  | some v => v.line
  | none => 0

/-- Separation of two successive units: the later unit's primary line
exceeds the earlier unit's last line by more than 3. -/
def sepOk (g h : List Vulnerability) : Prop := lastLineD g + 3 < headLineD h

/-- A finding at line 0 (unlocated). -/
def cv0 : Vulnerability := ⟨"cppcheck".toList, "a.c".toList, 0, "m0".toList, "w".toList, none⟩

/-- A finding at line 2 of the same file. -/
def cv2 : Vulnerability := ⟨"cppcheck".toList, "a.c".toList, 2, "m2".toList, "w".toList, none⟩

/-- A finding at line 1. -/
def cv1 : Vulnerability := ⟨"flawfinder".toList, "a.c".toList, 1, "m1".toList, "3".toList, none⟩

/-- Findings at lines 10, 12, 15 and 30 of one file (the spec's grouping
example). -/
def cg10 : Vulnerability := ⟨"t".toList, "a.c".toList, 10, "m".toList, "w".toList, none⟩

def cg12 : Vulnerability := ⟨"t".toList, "a.c".toList, 12, "m".toList, "w".toList, none⟩

def cg15 : Vulnerability := ⟨"t".toList, "a.c".toList, 15, "m".toList, "w".toList, none⟩

def cg30 : Vulnerability := ⟨"t".toList, "a.c".toList, 30, "m".toList, "w".toList, none⟩

/-- A one-file file system: `a.c` holds the single line `bar\n`. -/
def fsBar : FS :=
  fun q => if q = "a.c".toList then some ["bar\n".toList] else none

/-- A one-file file system whose single line is whitespace-only. -/
def fsBlank : FS :=
  fun q => if q = "a.c".toList then some ["  \n".toList] else none

/-- A two-file file system: `foo.c` and `foo.h` in one directory. -/
def fsTwo : FS :=
  fun q =>
    if q = "foo.c".toList then some ["a\n".toList]
    else if q = "foo.h".toList then some ["b\n".toList]
    else none

/-- A finding at line 1 of `foo.c`. -/
def cvFooC : Vulnerability := ⟨"t".toList, "foo.c".toList, 1, "m".toList, "w".toList, none⟩

/-- A finding at line 1 of `foo.h`. -/
def cvFooH : Vulnerability := ⟨"t".toList, "foo.h".toList, 1, "m".toList, "w".toList, none⟩

/-- A proposer that always proposes the content `foo`. -/
def propFoo : PyStr → PyStr → Vulnerability → Option PyStr :=
  fun _ _ _ => some "foo".toList

/-- A proposer that never proposes a fix. -/
def propNone : PyStr → PyStr → Vulnerability → Option PyStr :=
  fun _ _ _ => none

/-- Applying a list of accepted single-line replacements `(index, new line)`
in order. -/
def applyFixups (fixups : List (Nat × PyStr)) (lines : List PyStr) : List PyStr :=
  fixups.foldl (fun m ifl => m.set ifl.1 ifl.2) lines

/-- A service that always fails in transport. -/
def svcDown : PyStr → PyStr → Vulnerability → SvcResult :=
  fun _ _ _ => SvcResult.postRaised

/-! # Theorems -/

/-! ## The grouping walk -/

theorem groupGo_flatten :
    ∀ (rest : List Vulnerability) (acc : List (List Vulnerability))
      (cur : List Vulnerability) (curLast : Int),
      (groupGo acc cur curLast rest).flatten = acc.flatten ++ cur ++ rest
  | [], acc, cur, curLast => by simp [groupGo]
  | v :: rest, acc, cur, curLast => by
    by_cases h : v.line - curLast ≤ 3
    · rw [groupGo, if_pos h, groupGo_flatten rest]
      simp
    · rw [groupGo, if_neg h, groupGo_flatten rest]
      simp

theorem group_flatten (l : List Vulnerability) :
    (_group_vulnerabilities l).flatten = List.insertionSort leLine l := by
  unfold _group_vulnerabilities
  cases h : List.insertionSort leLine l with
  | nil => simp
  | cons v rest => rw [groupGo_flatten]; simp

theorem group_perm (l : List Vulnerability) :
    (_group_vulnerabilities l).flatten.Perm l := by
  rw [group_flatten]; exact List.perm_insertionSort leLine l

/-- Stability of the sort: the findings of any one line keep their input
order (Python's `sorted` is stable; insertion sort with a non-strict key
relation realizes it). -/
theorem orderedInsert_filter_line (k : Int) (a : Vulnerability) :
    ∀ l : List Vulnerability,
      (List.orderedInsert leLine a l).filter (fun v => v.line == k) =
        if a.line = k then a :: l.filter (fun v => v.line == k)
        else l.filter (fun v => v.line == k)
  | [] => by
    by_cases h : a.line = k <;> simp [List.orderedInsert, h]
  | b :: t => by
    by_cases hab : leLine a b
    · rw [List.orderedInsert, if_pos hab]
      by_cases h : a.line = k <;> simp [List.filter_cons, h]
    · rw [List.orderedInsert, if_neg hab]
      have hba : b.line < a.line := by
        simpa [leLine, not_le] using hab
      simp only [List.filter_cons]
      rw [orderedInsert_filter_line k a t]
      by_cases h : a.line = k
      · have hbk : ¬ b.line = k := by omega
        simp [h, hbk]
      · by_cases hbk : b.line = k <;> simp [h, hbk]

theorem insertionSort_filter_line (k : Int) :
    ∀ l : List Vulnerability,
      (List.insertionSort leLine l).filter (fun v => v.line == k) =
        l.filter (fun v => v.line == k)
  | [] => rfl
  | a :: t => by
    rw [List.insertionSort, orderedInsert_filter_line, List.filter_cons]
    by_cases h : a.line = k
    · rw [if_pos h, insertionSort_filter_line k t]
      simp [h]
    · rw [if_neg h, insertionSort_filter_line k t]
      simp [h]

theorem groupGo_unitOk :
    ∀ (rest : List Vulnerability) (acc : List (List Vulnerability))
      (cur : List Vulnerability) (curLast : Int),
      (∀ g ∈ acc, unitOk g) →
      cur ≠ [] →
      List.Chain' gapOk cur →
      (∀ w ∈ cur.getLast?, w.line = curLast) →
      List.Pairwise leLine rest →
      (∀ v ∈ rest, curLast ≤ v.line) →
      ∀ g ∈ groupGo acc cur curLast rest, unitOk g
  | [], acc, cur, curLast, hacc, hne, hch, _, _, _, g, hg => by
    rw [groupGo, List.mem_append] at hg
    rcases hg with hg | hg
    · exact hacc g hg
    · rw [List.mem_singleton] at hg
      exact hg ▸ ⟨hne, hch⟩
  | v :: rest, acc, cur, curLast, hacc, hne, hch, hlast, hsort, hge, g, hg => by
    rw [List.pairwise_cons] at hsort
    by_cases h : v.line - curLast ≤ 3
    · rw [groupGo, if_pos h] at hg
      refine groupGo_unitOk rest acc (cur ++ [v]) v.line hacc (by simp) ?_ ?_ hsort.2 ?_ g hg
      · rw [List.chain'_append]
        refine ⟨hch, List.chain'_singleton v, ?_⟩
        intro x hx y hy
        rw [List.head?_cons, Option.mem_some_iff] at hy
        subst hy
        have hx' := hlast x hx
        exact ⟨hx' ▸ hge v (List.mem_cons_self v rest), by omega⟩
      · intro w hw
        rw [List.getLast?_concat, Option.mem_some_iff] at hw
        exact hw ▸ rfl
      · exact fun u hu => hsort.1 u hu
    · rw [groupGo, if_neg h] at hg
      refine groupGo_unitOk rest (acc ++ [cur]) [v] v.line ?_ (by simp)
        (List.chain'_singleton v) ?_ hsort.2 (fun u hu => hsort.1 u hu) g hg
      · intro g' hg'
        rw [List.mem_append, List.mem_singleton] at hg'
        rcases hg' with hg' | hg'
        · exact hacc g' hg'
        · exact hg' ▸ ⟨hne, hch⟩
      · intro w hw
        rw [List.getLast?_singleton, Option.mem_some_iff] at hw
        exact hw ▸ rfl

theorem group_unitOk (l : List Vulnerability) :
    ∀ g ∈ _group_vulnerabilities l, unitOk g := by
  unfold _group_vulnerabilities
  cases h : List.insertionSort leLine l with
  | nil => simp
  | cons v rest =>
    have hsorted : List.Pairwise leLine (v :: rest) := by
      have := List.sorted_insertionSort leLine l
      rw [h] at this
      exact this
    rw [List.pairwise_cons] at hsorted
    exact groupGo_unitOk rest [] [v] v.line (by simp) (by simp)
      (List.chain'_singleton v) (by simp) hsorted.2 (fun u hu => hsorted.1 u hu)

theorem headLineD_concat (cur : List Vulnerability) (v : Vulnerability) (h : cur ≠ []) :
    headLineD (cur ++ [v]) = headLineD cur := by
  cases cur with
  | nil => exact absurd rfl h
  | cons c cs => rfl

theorem lastLineD_eq_of_getLast? {cur : List Vulnerability} {w : Vulnerability}
    (h : cur.getLast? = some w) : lastLineD cur = w.line := by
  rw [lastLineD, h]

theorem unitOk_head_le_last : ∀ g : List Vulnerability, unitOk g → headLineD g ≤ lastLineD g
  | [], h => absurd rfl h.1
  | [v], _ => le_refl _
  | v :: w :: t, h => by
    have hch := h.2
    rw [List.chain'_cons] at hch
    have ih := unitOk_head_le_last (w :: t) ⟨by simp, hch.2⟩
    have : lastLineD (v :: w :: t) = lastLineD (w :: t) := by
      rw [lastLineD, lastLineD, List.getLast?_cons_cons]
    rw [headLineD, this]
    exact le_trans hch.1.1 ih

theorem groupGo_sepChain :
    ∀ (rest : List Vulnerability) (acc : List (List Vulnerability))
      (cur : List Vulnerability) (curLast : Int),
      List.Chain' sepOk acc →
      (∀ a ∈ acc.getLast?, sepOk a cur) →
      cur ≠ [] →
      (∀ w ∈ cur.getLast?, w.line = curLast) →
      List.Chain' sepOk (groupGo acc cur curLast rest)
  | [], acc, cur, curLast, hacc, hlink, _, _ => by
    rw [groupGo, List.chain'_append]
    exact ⟨hacc, List.chain'_singleton cur, fun a ha b hb => by
      rw [List.head?_cons, Option.mem_some_iff] at hb
      exact hb ▸ hlink a ha⟩
  | v :: rest, acc, cur, curLast, hacc, hlink, hne, hlast => by
    by_cases h : v.line - curLast ≤ 3
    · rw [groupGo, if_pos h]
      refine groupGo_sepChain rest acc (cur ++ [v]) v.line hacc ?_ (by simp) ?_
      · intro a ha
        rw [sepOk, headLineD_concat cur v hne]
        exact hlink a ha
      · intro w hw
        rw [List.getLast?_concat, Option.mem_some_iff] at hw
        exact hw ▸ rfl
    · rw [groupGo, if_neg h]
      refine groupGo_sepChain rest (acc ++ [cur]) [v] v.line ?_ ?_ (by simp) ?_
      · rw [List.chain'_append]
        exact ⟨hacc, List.chain'_singleton cur, fun a ha b hb => by
          rw [List.head?_cons, Option.mem_some_iff] at hb
          exact hb ▸ hlink a ha⟩
      · intro a ha
        rw [List.getLast?_concat, Option.mem_some_iff] at ha
        subst ha
        cases hc : cur.getLast? with
        | none => exact absurd (List.getLast?_eq_none_iff.mp hc) hne
        | some w =>
          have hw := hlast w (by rw [hc]; rfl)
          rw [sepOk, lastLineD_eq_of_getLast? hc, hw, headLineD]
          omega
      · intro w hw
        rw [List.getLast?_singleton, Option.mem_some_iff] at hw
        exact hw ▸ rfl

theorem group_sepChain (l : List Vulnerability) :
    List.Chain' sepOk (_group_vulnerabilities l) := by
  unfold _group_vulnerabilities
  cases h : List.insertionSort leLine l with
  | nil => exact List.chain'_nil
  | cons v rest =>
    exact groupGo_sepChain rest [] [v] v.line List.chain'_nil (by simp) (by simp) (by simp)

theorem sepOk_head_of_chain (g : List Vulnerability) (gs : List (List Vulnerability))
    (hhl : ∀ h ∈ gs, headLineD h ≤ lastLineD h)
    (hch : List.Chain' sepOk (g :: gs)) :
    ∀ h ∈ gs, sepOk g h := by
  induction gs generalizing g with
  | nil => intro h hh; cases hh
  | cons r rest ih =>
    rw [List.chain'_cons] at hch
    intro h hh
    rcases List.mem_cons.mp hh with hh | hh
    · exact hh ▸ hch.1
    · have hr := ih r (fun h' hh' => hhl h' (List.mem_cons_of_mem r hh')) hch.2 h hh
      have hrl := hhl r (List.mem_cons_self r rest)
      have h1 := hch.1
      rw [sepOk] at h1 hr ⊢
      omega

theorem chain'_sepOk_pairwise :
    ∀ gs : List (List Vulnerability),
      (∀ g ∈ gs, headLineD g ≤ lastLineD g) →
      List.Chain' sepOk gs → List.Pairwise sepOk gs
  | [], _, _ => List.Pairwise.nil
  | g :: gs, hhl, hch => by
    refine List.Pairwise.cons ?_
      (chain'_sepOk_pairwise gs (fun h hh => hhl h (List.mem_cons_of_mem g hh)) hch.tail)
    exact sepOk_head_of_chain g gs (fun h hh => hhl h (List.mem_cons_of_mem g hh)) hch

theorem group_pairwise_sepOk (l : List Vulnerability) :
    List.Pairwise sepOk (_group_vulnerabilities l) :=
  chain'_sepOk_pairwise _
    (fun g hg => unitOk_head_le_last g (group_unitOk l g hg))
    (group_sepChain l)

/-! ## Claim C1 -/

/-- Claim C1: for every list of findings on one file, grouping sorts
ascending by line (stably: the findings of each line keep their input
order), then walks the sorted sequence starting a new group whenever the
current finding's line exceeds the last accepted member's line by more than
3, otherwise appending; the result partitions the input (its flattening is
the stable sort, a permutation of the input), every group is non-empty and
internally chained ascending with consecutive members at most 3 lines
apart, the empty input yields the empty list, and findings at lines
[10, 12, 15, 30] yield the groups [[10, 12, 15], [30]]. -/
theorem c1_grouping (l : List Vulnerability) :
    _group_vulnerabilities ([] : List Vulnerability) = [] ∧
    (_group_vulnerabilities l).flatten = List.insertionSort leLine l ∧
    ((_group_vulnerabilities l).flatten).Perm l ∧
    (∀ k : Int, (_group_vulnerabilities l).flatten.filter (fun v => v.line == k) =
        l.filter (fun v => v.line == k)) ∧
    (∀ g ∈ _group_vulnerabilities l, g ≠ [] ∧ List.Chain' gapOk g) ∧
    _group_vulnerabilities [cg10, cg12, cg15, cg30] = [[cg10, cg12, cg15], [cg30]] := by
  refine ⟨rfl, group_flatten l, group_perm l, ?_, ?_, ?_⟩
  · intro k
    rw [group_flatten]
    exact insertionSort_filter_line k l
  · exact fun g hg => group_unitOk l g hg
  · decide

/-! ## Claim C2 -/

/-- Claim C2's counterexample: the findings at lines 0 and 2 of one file are
grouped into the single unit [[0, 2]], so a Finding with line == 0 does
appear in a RemediationUnit produced by the grouping step (nothing filters
unlocated findings before grouping). -/
theorem c2_counterexample :
    cv0.line = 0 ∧ _group_vulnerabilities [cv0, cv2] = [[cv0, cv2]] := by
  decide

/-- Claim C2 amended: findings with line ≤ 0 are not excluded before
grouping and can appear in RemediationUnits; however, every unit containing
such a finding has a primary with line ≤ 0, and processing such a unit never
mutates the working copy or the counter (the bounds guard skips it), so an
unlocated finding never causes a file write. -/
theorem c2_amended (vulns : List Vulnerability) (g : List Vulnerability)
    (hg : g ∈ _group_vulnerabilities vulns) (hv : ∃ v ∈ g, v.line ≤ 0) :
    headLineD g ≤ 0 ∧
    ∀ (proposer : PyStr → PyStr → Vulnerability → Option PyStr) (st : List PyStr × Nat),
      applyGroup proposer st g = st := by
  obtain ⟨hne, hch⟩ := group_unitOk vulns g hg
  obtain ⟨u, hu, hu0⟩ := hv
  cases g with
  | nil => exact absurd rfl hne
  | cons v rest =>
    have hvu : v.line ≤ u.line := by
      rcases List.mem_cons.mp hu with h | h
      · exact h ▸ le_refl _
      · have hle : List.Chain' leLine (v :: rest) :=
          hch.imp (fun a b hab => hab.1)
        have hpw : List.Pairwise leLine (v :: rest) :=
          List.chain'_iff_pairwise.mp hle
        exact (List.pairwise_cons.mp hpw).1 u h
    have hv0 : v.line ≤ 0 := le_trans hvu hu0
    refine ⟨hv0, ?_⟩
    intro proposer st
    rw [applyGroup]
    rw [if_neg]
    intro hcontra
    omega

/-- Witness for C2's amended claim at the concrete unit [[0, 2]]. -/
theorem c2_witness :
    headLineD [cv0, cv2] ≤ 0 ∧
    ∀ (proposer : PyStr → PyStr → Vulnerability → Option PyStr) (st : List PyStr × Nat),
      applyGroup proposer st [cv0, cv2] = st :=
  c2_amended [cv0, cv2] [cv0, cv2] (by decide) ⟨cv0, by decide, by decide⟩

/-! ## Claim C3 -/

/-- Claim C3: for every in-bounds unit whose proposer yields a fix `p`, the
candidate line is the original line's leading indentation, then the proposal
with trailing whitespace stripped, then a newline; the replacement is
applied and the counter incremented iff this candidate differs from the
original line and the stripped proposed content is non-empty, and otherwise
the working copy and the counter are unchanged. -/
theorem c3_decision (proposer : PyStr → PyStr → Vulnerability → Option PyStr)
    (m : List PyStr) (c : Nat) (v : Vulnerability) (rest : List Vulnerability) (p : PyStr)
    (h0 : 0 ≤ v.line - 1) (h1 : v.line - 1 < (m.length : Int))
    (hp : proposer (m.getD (v.line - 1).toNat []) (contextOf m (v.line - 1)) v = some p) :
    (( _get_indentation (m.getD (v.line - 1).toNat []) ++ rstrip p ++ ['\n']) ≠
          m.getD (v.line - 1).toNat [] ∧ 0 < (pyStrip (rstrip p)).length →
      applyGroup proposer (m, c) (v :: rest) =
        (m.set (v.line - 1).toNat
          ( _get_indentation (m.getD (v.line - 1).toNat []) ++ rstrip p ++ ['\n']), c + 1)) ∧
    (( _get_indentation (m.getD (v.line - 1).toNat []) ++ rstrip p ++ ['\n']) =
          m.getD (v.line - 1).toNat [] ∨ (pyStrip (rstrip p)).length = 0 →
      applyGroup proposer (m, c) (v :: rest) = (m, c)) := by
  constructor
  · intro hacc
    rw [applyGroup]
    rw [if_pos ⟨h0, h1⟩]
    simp only
    rw [hp]
    simp only
    rw [if_pos hacc]
  · intro hrej
    rw [applyGroup]
    rw [if_pos ⟨h0, h1⟩]
    simp only
    rw [hp]
    simp only
    rw [if_neg]
    intro hcontra
    rcases hrej with hrej | hrej
    · exact hcontra.1 hrej
    · omega

/-- Witness for C3 at a concrete input: one line `bar\n`, a unit at line 1
and the proposal `foo`: the candidate `foo\n` differs and is non-blank, so
it is applied and the counter becomes 1. -/
theorem c3_witness :
    applyGroup propFoo (["bar\n".toList], 0) [cv1] = (["foo\n".toList], 1) := by
  have h := c3_decision propFoo ["bar\n".toList] 0 cv1 [] "foo".toList
    (by decide) (by decide) rfl
  have happ := h.1 (by decide)
  rw [happ]
  decide

/-! ## The step as the pristine decision against the current state -/

theorem applyGroup_eq_groupFixAt (proposer : PyStr → PyStr → Vulnerability → Option PyStr)
    (st : List PyStr × Nat) (g : List Vulnerability) :
    applyGroup proposer st g =
      match groupFixAt proposer st.1 g with
      | some ifl => (st.1.set ifl.1 ifl.2, st.2 + 1)
      | none => st := by
  cases g with
  | nil => rfl
  | cons v rest =>
    rw [applyGroup, groupFixAt]
    by_cases h : 0 ≤ v.line - 1 ∧ v.line - 1 < (st.1.length : Int)
    · rw [if_pos h, if_pos h]
      simp only
      cases hp : proposer (st.1.getD (v.line - 1).toNat []) (contextOf st.1 (v.line - 1)) v with
      | none => rfl
      | some fl =>
        simp only
        by_cases hd : ( _get_indentation (st.1.getD (v.line - 1).toNat []) ++ rstrip fl ++
              ['\n']) ≠ st.1.getD (v.line - 1).toNat [] ∧ 0 < (pyStrip (rstrip fl)).length
        · rw [if_pos hd, if_pos hd]
        · rw [if_neg hd, if_neg hd]
    · rw [if_neg h, if_neg h]

theorem applyGroup_length (proposer : PyStr → PyStr → Vulnerability → Option PyStr)
    (st : List PyStr × Nat) (g : List Vulnerability) :
    (applyGroup proposer st g).1.length = st.1.length := by
  rw [applyGroup_eq_groupFixAt]
  cases groupFixAt proposer st.1 g with
  | none => rfl
  | some ifl => exact List.length_set st.1 ifl.1 ifl.2

theorem applyGroup_of_none (proposer : PyStr → PyStr → Vulnerability → Option PyStr)
    (st : List PyStr × Nat) (g : List Vulnerability)
    (hnone : ∀ line ctx v, proposer line ctx v = none) :
    applyGroup proposer st g = st := by
  cases g with
  | nil => rfl
  | cons v rest =>
    rw [applyGroup]
    by_cases h : 0 ≤ v.line - 1 ∧ v.line - 1 < (st.1.length : Int)
    · rw [if_pos h]
      simp only
      rw [hnone]
    · rw [if_neg h]

theorem foldl_applyGroup_of_none (proposer : PyStr → PyStr → Vulnerability → Option PyStr)
    (hnone : ∀ line ctx v, proposer line ctx v = none) :
    ∀ (gs : List (List Vulnerability)) (st : List PyStr × Nat),
      gs.foldl (applyGroup proposer) st = st
  | [], _ => rfl
  | g :: gs, st => by
    rw [List.foldl_cons, applyGroup_of_none proposer st g hnone,
      foldl_applyGroup_of_none proposer hnone gs st]

/-! ## Claim C5 -/

/-- Claim C5: a file whose processing accepts zero changes is left
byte-for-byte untouched on disk — no backup is created and no write is
performed (the file system is returned unchanged); in particular a proposer
that returns None for every unit accepts zero changes. -/
theorem c5_noop (proposer : PyStr → PyStr → Vulnerability → Option PyStr)
    (fs : FS) (path : PyStr) (vulns : List Vulnerability)
    (lines : List PyStr) (hfs : fs path = some lines) :
    (((_group_vulnerabilities vulns).foldl (applyGroup proposer) (lines, 0)).2 = 0 →
      fix_file proposer fs path vulns = fs) ∧
    ((∀ line ctx v, proposer line ctx v = none) →
      ((_group_vulnerabilities vulns).foldl (applyGroup proposer) (lines, 0)).2 = 0 ∧
        fix_file proposer fs path vulns = fs) := by
  have hmain : ((_group_vulnerabilities vulns).foldl (applyGroup proposer) (lines, 0)).2 = 0 →
      fix_file proposer fs path vulns = fs := by
    intro hzero
    rw [fix_file, hfs]
    simp only
    rw [if_neg]
    omega
  refine ⟨hmain, fun hnone => ?_⟩
  have hfold := foldl_applyGroup_of_none proposer hnone (_group_vulnerabilities vulns) (lines, 0)
  rw [hfold]
  exact ⟨rfl, hmain (by rw [hfold])⟩

/-- Witness for C5: with the always-None proposer on the one-line file
`a.c`, zero lines are modified and the file system is unchanged. -/
theorem c5_witness :
    ((_group_vulnerabilities [cv1]).foldl (applyGroup propNone) (["bar\n".toList], 0)).2 = 0 ∧
      fix_file propNone fsBar "a.c".toList [cv1] = fsBar :=
  (c5_noop propNone fsBar "a.c".toList [cv1] ["bar\n".toList] rfl).2 (fun _ _ _ => rfl)

/-! ## Claim C6 -/

/-- Claim C6's counterexample: a whitespace-only original line does receive
an applicable fix.  With original line `"  \n"` and proposal `foo`, the
line's indentation is the whole line (newline included), the reconstructed
candidate `"  \nfoo\n"` differs from the original and the stripped proposal
is non-empty, so the replacement is accepted and the counter increments —
and the accepted element now embeds an extra newline, lengthening the
file's physical line content. -/
theorem c6_counterexample :
    lstrip "  \n".toList = [] ∧
    applyGroup propFoo (["  \n".toList], 0) [cv1] = (["  \nfoo\n".toList], 1) := by
  decide

/-- Claim C6 amended: every applied single-line fix preserves the working
copy's element count, and an empty or whitespace-only original line yields
the line itself (its newline included) as its own indentation; but such a
line can still receive an accepted fix — the reconstructed candidate embeds
the whole blank line before the proposed content, so the file's physical
line count can grow on write even though the element count is preserved. -/
theorem c6_amended :
    (∀ (proposer : PyStr → PyStr → Vulnerability → Option PyStr)
        (st : List PyStr × Nat) (g : List Vulnerability),
      (applyGroup proposer st g).1.length = st.1.length) ∧
    (∀ line : PyStr, lstrip line = [] → _get_indentation line = line) ∧
    applyGroup propFoo (["  \n".toList], 0) [cv1] =
      (["  \n".toList ++ "foo".toList ++ ['\n']], 1) := by
  refine ⟨applyGroup_length, ?_, by decide⟩
  intro line hline
  rw [ _get_indentation]
  simp [hline]

/-! ## Claim C8 -/

/-- Claim C8: any transport exception, HTTP error status, or JSON decode
failure (outer or inner) from the fix service makes `_query_llm_for_fix`
return None; a unit whose service call fails is skipped with no mutation,
the remaining units continue to be processed, and a whole run against a
failing service never mutates the file system (never fatal). -/
theorem c8_service_failure :
    (∀ outcome : SvcResult, svcFailed outcome = true → _query_llm_for_fix outcome = none) ∧
    (∀ svc : PyStr → PyStr → Vulnerability → SvcResult,
      (∀ line ctx v, svcFailed (svc line ctx v) = true) →
      (∀ line ctx v, proposerOfSvc svc line ctx v = none) ∧
      (∀ (st : List PyStr × Nat) (g : List Vulnerability) (gs : List (List Vulnerability)),
        (g :: gs).foldl (applyGroup (proposerOfSvc svc)) st =
          gs.foldl (applyGroup (proposerOfSvc svc)) st) ∧
      (∀ (fs : FS) (path : PyStr) (vulns : List Vulnerability),
        fix_file (proposerOfSvc svc) fs path vulns = fs)) := by
  constructor
  · intro outcome hfail
    cases outcome with
    | postRaised => rfl
    | badStatus => rfl
    | outerJsonRaised => rfl
    | innerJsonRaised => rfl
    | parsed d => exact absurd hfail (by simp [svcFailed])
  · intro svc hsvc
    have hnone : ∀ line ctx v, proposerOfSvc svc line ctx v = none := by
      intro line ctx v
      have h := hsvc line ctx v
      rw [proposerOfSvc]
      cases houtcome : svc line ctx v with
      | postRaised => rfl
      | badStatus => rfl
      | outerJsonRaised => rfl
      | innerJsonRaised => rfl
      | parsed d => rw [houtcome] at h; exact absurd h (by simp [svcFailed])
    refine ⟨hnone, ?_, ?_⟩
    · intro st g gs
      rw [List.foldl_cons, applyGroup_of_none _ st g hnone]
    · intro fs path vulns
      cases hfs : fs path with
      | none => rw [fix_file, hfs]
      | some lines =>
        exact (c5_noop (proposerOfSvc svc) fs path vulns lines hfs).2 hnone |>.2

/-! ## Claim C10 -/

/-- Claim C10: the backup path replaces the file's extension with `.bak`,
so the mapping is not injective: `dir/foo.c` and `dir/foo.h` both map to
`dir/foo.bak`; processing `foo.c` (one accepted fix) writes backup
`foo.bak` with foo.c's pre-run content, and processing `foo.h` afterwards
silently overwrites that same backup with foo.h's pre-run content. -/
theorem c10_backup_collision :
    withSuffixBak "dir/foo.c".toList = "dir/foo.bak".toList ∧
    withSuffixBak "dir/foo.h".toList = "dir/foo.bak".toList ∧
    "dir/foo.c".toList ≠ "dir/foo.h".toList ∧
    fix_file propFoo fsTwo "foo.c".toList [cvFooC] "foo.bak".toList = some ["a\n".toList] ∧
    fix_file propFoo (fix_file propFoo fsTwo "foo.c".toList [cvFooC]) "foo.h".toList [cvFooH]
        "foo.bak".toList = some ["b\n".toList] := by
  refine ⟨by decide, by decide, by decide, by decide, by decide⟩

/-! ## Claim C7 -/

theorem cppcheckCollect_ok (resolve : PyStr → PyStr) :
    ∀ errors : List CppcheckError,
      (∀ e ∈ errors, ∀ loc, e.location = some loc → ∀ s, loc.line = some s →
        pyInt s ≠ Except.error ()) →
      ∃ vulns, cppcheckCollect resolve errors = Except.ok vulns
  | [], _ => ⟨[], rfl⟩
  | e :: rest, hline => by
    obtain ⟨vs, hvs⟩ := cppcheckCollect_ok resolve rest
      (fun e' he' => hline e' (List.mem_cons_of_mem e he'))
    rw [cppcheckCollect]
    cases hloc : e.location with
    | none => exact ⟨vs, hvs⟩
    | some loc =>
      simp only
      cases hfile : loc.file with
      | none => exact ⟨vs, hvs⟩
      | some fp =>
        simp only
        by_cases hfp : fp = []
        · rw [if_pos hfp]
          exact ⟨vs, hvs⟩
        · rw [if_neg hfp]
          cases hln : loc.line with
          | none =>
            simp only
            exact ⟨⟨"cppcheck".toList, resolve fp, 0, e.msg.getD [],
              e.severity.getD "info".toList, none⟩ :: vs, by rw [hvs]; rfl⟩
          | some s =>
            simp only
            have hne := hline e (List.mem_cons_self e rest) loc hloc s hln
            cases hpi : pyInt s with
            | error u =>
              cases u
              exact absurd hpi hne
            | ok n =>
              exact ⟨⟨"cppcheck".toList, resolve fp, n, e.msg.getD [],
                e.severity.getD "info".toList, none⟩ :: vs, by rw [hvs]; rfl⟩

/-- Claim C7's counterexample: a well-formed cppcheck report record whose
`line` attribute is non-numeric makes the normalizer raise (`int("abc")`,
a `ValueError` no handler in `_run_cppcheck` catches), aborting the run —
instead of normalizing the line to 0 as the claim states. -/
theorem c7_counterexample :
    _run_cppcheck id (some [⟨some ⟨some "a.c".toList, some "abc".toList⟩,
      some "m".toList, some "w".toList⟩]) = Except.error () := rfl

/-- Claim C7 amended: a malformed report (XML parse failure) or an absent
flawfinder report yields the empty list; a cppcheck record with a missing
line attribute normalizes to line 0, and the cppcheck normalizer returns
without error whenever every present line attribute parses as an integer;
the flawfinder normalizer is total and normalizes a non-numeric line field
to 0.  But a cppcheck record with a present non-numeric line attribute
raises an uncaught ValueError that aborts the run (see the
counterexample). -/
theorem c7_amended (resolve : PyStr → PyStr) :
    _run_cppcheck resolve none = Except.ok [] ∧
    _run_flawfinder resolve none = [] ∧
    (∀ errors : List CppcheckError,
      (∀ e ∈ errors, ∀ loc, e.location = some loc → ∀ s, loc.line = some s →
        pyInt s ≠ Except.error ()) →
      ∃ vulns, _run_cppcheck resolve (some errors) = Except.ok vulns) ∧
    _run_cppcheck resolve (some [⟨some ⟨some "a.c".toList, none⟩, some "m".toList,
        some "w".toList⟩]) =
      Except.ok [⟨"cppcheck".toList, resolve "a.c".toList, 0, "m".toList, "w".toList, none⟩] ∧
    _run_flawfinder resolve (some ["file,line,level,category,name,warning,note".toList,
        "f.c,xx,a,High,b,c,msg".toList]) =
      [⟨"flawfinder".toList, resolve "f.c".toList, 0, "msg".toList, "High".toList, none⟩] := by
  refine ⟨rfl, rfl, ?_, rfl, rfl⟩
  intro errors hline
  exact cppcheckCollect_ok resolve errors hline

/-! ## The pristine characterization of the patch fold (for C4 and C9) -/

theorem groupFixAt_some_spec (proposer : PyStr → PyStr → Vulnerability → Option PyStr)
    (lines : List PyStr) (g : List Vulnerability) (i : Nat) (fl : PyStr)
    (h : groupFixAt proposer lines g = some (i, fl)) :
    ∃ v rest, g = v :: rest ∧ 0 ≤ v.line - 1 ∧ v.line - 1 < (lines.length : Int) ∧
      i = (v.line - 1).toNat ∧
      ∃ p, proposer (lines.getD i []) (contextOf lines (v.line - 1)) v = some p ∧
        fl = _get_indentation (lines.getD i []) ++ rstrip p ++ ['\n'] ∧
        fl ≠ lines.getD i [] ∧ 0 < (pyStrip (rstrip p)).length := by
  cases g with
  | nil => exact absurd h (by rw [groupFixAt]; simp)
  | cons v rest =>
    rw [groupFixAt] at h
    by_cases hb : 0 ≤ v.line - 1 ∧ v.line - 1 < (lines.length : Int)
    · rw [if_pos hb] at h
      simp only at h
      cases hp : proposer (lines.getD (v.line - 1).toNat []) (contextOf lines (v.line - 1)) v with
      | none => rw [hp] at h; exact absurd h (by simp)
      | some p =>
        rw [hp] at h
        simp only at h
        by_cases hd : ( _get_indentation (lines.getD (v.line - 1).toNat []) ++ rstrip p ++
            ['\n']) ≠ lines.getD (v.line - 1).toNat [] ∧ 0 < (pyStrip (rstrip p)).length
        · rw [if_pos hd] at h
          rw [Option.some_inj, Prod.ext_iff] at h
          obtain ⟨hi, hfl⟩ := h
          simp only at hi hfl
          subst hi
          exact ⟨v, rest, rfl, hb.1, hb.2, rfl, p, hp, hfl.symm, hfl ▸ hd.1, hd.2⟩
        · rw [if_neg hd] at h; exact absurd h (by simp)
    · rw [if_neg hb] at h; exact absurd h (by simp)

theorem groupFixAt_congr (proposer : PyStr → PyStr → Vulnerability → Option PyStr)
    (m lines : List PyStr) (g : List Vulnerability)
    (hlen : m.length = lines.length)
    (hag : ∀ j : Nat, headLineD g - 3 ≤ (j : Int) → m[j]? = lines[j]?) :
    groupFixAt proposer m g = groupFixAt proposer lines g := by
  cases g with
  | nil => rfl
  | cons v rest =>
    rw [groupFixAt, groupFixAt, hlen]
    by_cases hb : 0 ≤ v.line - 1 ∧ v.line - 1 < (lines.length : Int)
    · rw [if_pos hb, if_pos hb]
      have hgetE : m[(v.line - 1).toNat]? = lines[(v.line - 1).toNat]? := by
        apply hag
        rw [headLineD]
        omega
      have hD : m.getD (v.line - 1).toNat [] = lines.getD (v.line - 1).toNat [] := by
        rw [List.getD_eq_getElem?_getD, List.getD_eq_getElem?_getD, hgetE]
      have hctx : contextOf m (v.line - 1) = contextOf lines (v.line - 1) := by
        rw [contextOf, contextOf, hlen]
        apply congrArg List.flatten
        apply List.ext_getElem?
        intro n
        by_cases hn : n < ((min (lines.length : Int) (v.line - 1 + 3)) -
            max 0 (v.line - 1 - 2)).toNat
        · rw [List.getElem?_take_of_lt hn, List.getElem?_take_of_lt hn,
            List.getElem?_drop, List.getElem?_drop]
          apply hag
          rw [headLineD]
          omega
        · have hk1 : ((m.drop (max 0 (v.line - 1 - 2)).toNat).take
              ((min (lines.length : Int) (v.line - 1 + 3)) -
                max 0 (v.line - 1 - 2)).toNat).length ≤ n := by
            rw [List.length_take]
            omega
          have hk2 : ((lines.drop (max 0 (v.line - 1 - 2)).toNat).take
              ((min (lines.length : Int) (v.line - 1 + 3)) -
                max 0 (v.line - 1 - 2)).toNat).length ≤ n := by
            rw [List.length_take]
            omega
          rw [List.getElem?_eq_none hk1, List.getElem?_eq_none hk2]
      rw [hD, hctx]
    · rw [if_neg hb, if_neg hb]

theorem applyFixups_length : ∀ (ps : List (Nat × PyStr)) (m : List PyStr),
    (applyFixups ps m).length = m.length
  | [], _ => rfl
  | p :: ps, m => by
    have ih := applyFixups_length ps (m.set p.1 p.2)
    rw [applyFixups, List.foldl_cons]
    rw [applyFixups] at ih
    rw [ih, List.length_set]

theorem applyFixups_getElem?_of_ne (j : Nat) :
    ∀ (ps : List (Nat × PyStr)) (m : List PyStr),
      (∀ p ∈ ps, p.1 ≠ j) → (applyFixups ps m)[j]? = m[j]?
  | [], _, _ => rfl
  | p :: ps, m, hne => by
    have ih := applyFixups_getElem?_of_ne j ps (m.set p.1 p.2)
      (fun q hq => hne q (List.mem_cons_of_mem p hq))
    rw [applyFixups, List.foldl_cons]
    rw [applyFixups] at ih
    rw [ih, List.getElem?_set_ne (hne p (List.mem_cons_self p ps))]

theorem applyFixups_getElem?_of_mem (j : Nat) (fl : PyStr) :
    ∀ (ps : List (Nat × PyStr)) (m : List PyStr),
      List.Pairwise (fun a b => a.1 ≠ b.1) ps → (j, fl) ∈ ps → j < m.length →
      (applyFixups ps m)[j]? = some fl
  | [], _, _, hmem, _ => absurd hmem (List.not_mem_nil _)
  | p :: ps, m, hpw, hmem, hj => by
    rw [List.pairwise_cons] at hpw
    rcases List.mem_cons.mp hmem with heq | hmem'
    · obtain ⟨hp1, hp2⟩ : p.1 = j ∧ p.2 = fl := by rw [← heq]; exact ⟨rfl, rfl⟩
      have hne : ∀ q ∈ ps, q.1 ≠ j := fun q hq => by
        have := hpw.1 q hq
        rw [hp1] at this
        exact this.symm
      have ih := applyFixups_getElem?_of_ne j ps (m.set j fl) hne
      rw [applyFixups, List.foldl_cons, hp1, hp2]
      rw [applyFixups] at ih
      rw [ih, List.getElem?_set_self hj]
    · have ih := applyFixups_getElem?_of_mem j fl ps (m.set p.1 p.2) hpw.2 hmem'
        (by rw [List.length_set]; exact hj)
      rw [applyFixups, List.foldl_cons]
      rw [applyFixups] at ih
      exact ih

/-- The master lemma: when the working copy `m` differs from the pristine
snapshot `lines` only at rows strictly more than 3 line-numbers below every
remaining unit's primary line, the patch fold equals the pristine per-unit
decisions applied in order, and the counter counts the accepted units.
(Successive units are separated by more than 3 lines, so an earlier accepted
row can never fall inside a later unit's 5-line context window.) -/
theorem foldl_applyGroup_pristine (proposer : PyStr → PyStr → Vulnerability → Option PyStr)
    (lines : List PyStr) :
    ∀ (gs : List (List Vulnerability)) (m : List PyStr) (c : Nat),
      m.length = lines.length →
      (∀ j : Nat, m[j]? ≠ lines[j]? → ∀ g ∈ gs, (j : Int) + 4 < headLineD g) →
      (∀ g ∈ gs, unitOk g) →
      List.Pairwise sepOk gs →
      gs.foldl (applyGroup proposer) (m, c) =
        (applyFixups (gs.filterMap (groupFixAt proposer lines)) m,
          c + (gs.filterMap (groupFixAt proposer lines)).length)
  | [], m, c, _, _, _, _ => by simp [applyFixups]
  | g :: gs, m, c, hlen, hag, hu, hpw => by
    have hcongr : groupFixAt proposer m g = groupFixAt proposer lines g := by
      apply groupFixAt_congr proposer m lines g hlen
      intro j hj
      by_cases hd : m[j]? = lines[j]?
      · exact hd
      · exact absurd (hag j hd g (List.mem_cons_self g gs)) (by omega)
    rw [List.foldl_cons, applyGroup_eq_groupFixAt]
    simp only
    rw [hcongr]
    rw [List.pairwise_cons] at hpw
    cases hfix : groupFixAt proposer lines g with
    | none =>
      rw [List.filterMap_cons_none hfix]
      exact foldl_applyGroup_pristine proposer lines gs m c hlen
        (fun j hj g' hg' => hag j hj g' (List.mem_cons_of_mem g hg'))
        (fun g' hg' => hu g' (List.mem_cons_of_mem g hg')) hpw.2
    | some ifl =>
      obtain ⟨i, fl⟩ := ifl
      obtain ⟨v, rest, hgv, hb0, hb1, hi, _, _, _, _, _⟩ :=
        groupFixAt_some_spec proposer lines g i fl hfix
      have hag' : ∀ j : Nat, (m.set i fl)[j]? ≠ lines[j]? →
          ∀ g' ∈ gs, (j : Int) + 4 < headLineD g' := by
        intro j hj g' hg'
        by_cases hij : i = j
        · subst hij
          have hsep : sepOk g g' := hpw.1 g' hg'
          have hgl : headLineD g ≤ lastLineD g :=
            unitOk_head_le_last g (hu g (List.mem_cons_self g gs))
          have hhead : headLineD g = v.line := by rw [hgv]; rfl
          rw [sepOk] at hsep
          have hii : (i : Int) = v.line - 1 := by rw [hi]; omega
          omega
        · rw [List.getElem?_set_ne hij] at hj
          exact hag j hj g' (List.mem_cons_of_mem g hg')
      have hih := foldl_applyGroup_pristine proposer lines gs (m.set i fl) (c + 1)
        (by rw [List.length_set]; exact hlen) hag'
        (fun g' hg' => hu g' (List.mem_cons_of_mem g hg')) hpw.2
      rw [List.filterMap_cons_some hfix]
      show gs.foldl (applyGroup proposer) (m.set i fl, c + 1) = _
      rw [hih]
      have hfold : applyFixups ((i, fl) :: gs.filterMap (groupFixAt proposer lines)) m =
          applyFixups (gs.filterMap (groupFixAt proposer lines)) (m.set i fl) := rfl
      rw [hfold, List.length_cons]
      exact congrArg (fun n => (applyFixups (gs.filterMap (groupFixAt proposer lines))
        (m.set i fl), n)) (by omega)

/-- The primary line of every group with an accepted fix gives the fix's
row index; distinct groups have distinct primaries, so the accepted fixes
touch pairwise distinct rows. -/
theorem fixups_pairwise_ne (proposer : PyStr → PyStr → Vulnerability → Option PyStr)
    (lines : List PyStr) (vulns : List Vulnerability) :
    List.Pairwise (fun a b => a.1 ≠ b.1)
      ((_group_vulnerabilities vulns).filterMap (groupFixAt proposer lines)) := by
  have hheads : List.Pairwise (fun g h => headLineD g < headLineD h)
      (_group_vulnerabilities vulns) := by
    apply List.Pairwise.imp_of_mem ?_ (group_pairwise_sepOk vulns)
    intro g h hg hh hsep
    have h1 := unitOk_head_le_last g (group_unitOk vulns g hg)
    rw [sepOk] at hsep
    omega
  apply List.Pairwise.filterMap (groupFixAt proposer lines) ?_ hheads
  intro g g' hlt b hb b' hb'
  rw [Option.mem_def] at hb hb'
  obtain ⟨v, rest, hgv, hb0, _, hi, _⟩ :=
    groupFixAt_some_spec proposer lines g b.1 b.2 (by rw [hb])
  obtain ⟨v', rest', hgv', hb0', _, hi', _⟩ :=
    groupFixAt_some_spec proposer lines g' b'.1 b'.2 (by rw [hb'])
  have hh1 : headLineD g = v.line := by rw [hgv]; rfl
  have hh2 : headLineD g' = v'.line := by rw [hgv']; rfl
  intro hcontra
  rw [hi, hi'] at hcontra
  omega

/-! ## Claim C4 -/

/-- Claim C4: for every file with at least one accepted fix, finalization
writes the untouched pre-run content to the backup path (overwriting
whatever was there) and only then overwrites the original path with the
working copy: afterwards the backup holds exactly the pre-run content, and
the original path holds the pre-run content with exactly the accepted
target rows replaced — the length is unchanged, every accepted fix's row
holds its accepted candidate (which differs from the pre-run row), and
every other row is unchanged. -/
theorem c4_backup (proposer : PyStr → PyStr → Vulnerability → Option PyStr)
    (fs : FS) (path : PyStr) (vulns : List Vulnerability) (lines : List PyStr)
    (hfs : fs path = some lines)
    (hbp : withSuffixBak path ≠ path)
    (hcount : 0 < ((_group_vulnerabilities vulns).foldl (applyGroup proposer) (lines, 0)).2) :
    fix_file proposer fs path vulns =
      fsSet (fsSet fs (withSuffixBak path) lines) path
        (applyFixups ((_group_vulnerabilities vulns).filterMap (groupFixAt proposer lines))
          lines) ∧
    fix_file proposer fs path vulns (withSuffixBak path) = some lines ∧
    fix_file proposer fs path vulns path =
      some (applyFixups ((_group_vulnerabilities vulns).filterMap (groupFixAt proposer lines))
        lines) ∧
    (applyFixups ((_group_vulnerabilities vulns).filterMap (groupFixAt proposer lines))
        lines).length = lines.length ∧
    (∀ j fl, (j, fl) ∈ (_group_vulnerabilities vulns).filterMap (groupFixAt proposer lines) →
      (applyFixups ((_group_vulnerabilities vulns).filterMap (groupFixAt proposer lines))
          lines)[j]? = some fl ∧
      (applyFixups ((_group_vulnerabilities vulns).filterMap (groupFixAt proposer lines))
          lines)[j]? ≠ lines[j]?) ∧
    (∀ j : Nat,
      (∀ q ∈ (_group_vulnerabilities vulns).filterMap (groupFixAt proposer lines), q.1 ≠ j) →
      (applyFixups ((_group_vulnerabilities vulns).filterMap (groupFixAt proposer lines))
          lines)[j]? = lines[j]?) := by
  have hmaster := foldl_applyGroup_pristine proposer lines (_group_vulnerabilities vulns)
    lines 0 rfl (fun j hj => absurd rfl hj) (group_unitOk vulns) (group_pairwise_sepOk vulns)
  have hpwf := fixups_pairwise_ne proposer lines vulns
  have hff : fix_file proposer fs path vulns =
      fsSet (fsSet fs (withSuffixBak path) lines) path
        (applyFixups ((_group_vulnerabilities vulns).filterMap (groupFixAt proposer lines))
          lines) := by
    rw [fix_file, hfs]
    simp only
    rw [hmaster] at hcount ⊢
    simp only at hcount ⊢
    rw [if_pos hcount]
  refine ⟨hff, ?_, ?_, applyFixups_length _ _, ?_, ?_⟩
  · rw [hff]
    simp [fsSet, hbp]
  · rw [hff]
    simp [fsSet]
  · intro j fl hmem
    obtain ⟨g, hg, hfix⟩ := List.mem_filterMap.mp hmem
    obtain ⟨v, rest, hgv, hb0, hb1, hi, _, _, _, hne, _⟩ :=
      groupFixAt_some_spec proposer lines g j fl hfix
    have hjlen : j < lines.length := by omega
    have hget := applyFixups_getElem?_of_mem j fl
      ((_group_vulnerabilities vulns).filterMap (groupFixAt proposer lines)) lines
      hpwf hmem hjlen
    refine ⟨hget, ?_⟩
    rw [hget, List.getElem?_eq_getElem hjlen]
    intro hcontra
    rw [Option.some_inj] at hcontra
    apply hne
    rw [List.getD_eq_getElem?_getD, List.getElem?_eq_getElem hjlen, Option.getD_some]
    exact hcontra
  · intro j hne
    exact applyFixups_getElem?_of_ne j _ lines hne

/-- Witness for C4 at a concrete input: fixing `a.c` (one line `bar\n`, one
finding, proposal `foo`) leaves the pre-run content in `a.bak`. -/
theorem c4_witness :
    fix_file propFoo fsBar "a.c".toList [cv1] (withSuffixBak "a.c".toList) =
      some ["bar\n".toList] :=
  (c4_backup propFoo fsBar "a.c".toList [cv1] ["bar\n".toList] rfl
    (by decide) (by decide)).2.1

/-! ## Indentation reattachment (for C9) -/

/-- A file whose fold accepts zero changes is left untouched on disk. -/
theorem fix_file_eq_of_count_zero (proposer : PyStr → PyStr → Vulnerability → Option PyStr)
    (fs : FS) (path : PyStr) (vulns : List Vulnerability) (lines : List PyStr)
    (hfs : fs path = some lines)
    (hzero : ((_group_vulnerabilities vulns).foldl (applyGroup proposer) (lines, 0)).2 = 0) :
    fix_file proposer fs path vulns = fs := by
  rw [fix_file, hfs]
  simp only
  rw [if_neg]
  omega

end AutoSecure
